import Mathlib

/-!
Shallow embedding of the loss layer of the repository
(`nerfstudio/model_components/losses.py` and
`nerfstudio/field_components/activations.py`) together with theorems that
settle the spec claims.  One-dimensional tensors are embedded either as
`List ℚ` or as index functions `ℕ → ℚ` / `ℕ → ℝ` with an explicit length;
batches of rays or images are index functions with an explicit count.
Exact rational or real arithmetic replaces floating point.
-/

namespace Losses

/-! ### Interval resampling engine (`outer`, losses.py lines 49-78) -/

/-- Embedding of `torch.searchsorted(a, v, side="right")` for a sorted
1-D tensor `a`: the number of entries of `a` that are `≤ v`, which is the
right insertion index torch returns on sorted input. -/
def searchsortedRight (a : List ℚ) (v : ℚ) : ℕ :=
  a.countP (fun x => decide (x ≤ v))

/-- Embedding of `cy1 = torch.cat([zeros_like(y1[..., :1]), cumsum(y1)])`:
the prefix sums of `y1` with a leading zero (length `y1.length + 1`). -/
def cumsumZero (y1 : List ℚ) : List ℚ :=
  List.scanl (· + ·) 0 y1

/-- Embedding of `outer` (losses.py lines 49-78), per ray.
`idx_lo = clamp(searchsorted(t1_starts, t0_starts, side="right") - 1, 0, n-1)`
(the `- 1` followed by the clamp at 0 is natural subtraction here),
`idx_hi = clamp(searchsorted(t1_ends, t0_ends, side="right"), 0, n-1)`,
`cy1_lo = cy1[..., :-1][idx_lo] = cy1[idx_lo]`,
`cy1_hi = cy1[..., 1:][idx_hi] = cy1[idx_hi + 1]`, result `cy1_hi - cy1_lo`. -/
def outer (t0_starts t0_ends t1_starts t1_ends y1 : List ℚ) : List ℚ :=
  let n := y1.length
  let cy1 := cumsumZero y1
  let idxLo := t0_starts.map (fun v => min (searchsortedRight t1_starts v - 1) (n - 1))
  let idxHi := t0_ends.map (fun v => min (searchsortedRight t1_ends v) (n - 1))
  List.zipWith (fun hi lo => cy1.getD (hi + 1) 0 - cy1.getD lo 0) idxHi idxLo

/-! ### Distortion loss formulations (losses.py lines 127-138 and 149-188) -/

/-- Embedding of `lossfun_distortion(t, w)` (losses.py lines 127-138) for one
ray with `n` samples: `t` are the `n+1` interval edges, `w` the `n` weights.
`ut = (t[..., 1:] + t[..., :-1]) / 2`,
`loss_inter = sum(w * sum(w[..., None, :] * dut, dim=-1), dim=-1)`,
`loss_intra = sum(w**2 * (t[..., 1:] - t[..., :-1]), dim=-1) / 3`. -/
def lossfun_distortion (n : ℕ) (t w : ℕ → ℚ) : ℚ :=
  (∑ i in Finset.range n, w i *
      ∑ j in Finset.range n, w j * |(t (i + 1) + t i) / 2 - (t (j + 1) + t j) / 2|) +
    (∑ i in Finset.range n, (w i) ^ 2 * (t (i + 1) - t i)) / 3

/-- Embedding of the per-ray value computed by `nerfstudio_distortion_loss`
(losses.py lines 149-188) from `spacing_starts`/`spacing_ends` and weights:
`midpoints = (starts + ends) / 2`,
`loss = sum(weights * weights[..., None, :, 0] * |midpoints - midpoints[..., None, :, 0]|)`
summed over both sample dimensions, plus
`1/3 * sum(weights**2 * (ends - starts))`. -/
def nerfstudio_distortion_loss (n : ℕ) (starts ends w : ℕ → ℚ) : ℚ :=
  (∑ i in Finset.range n, ∑ j in Finset.range n,
      w i * w j * |(starts i + ends i) / 2 - (starts j + ends j) / 2|) +
    1 / 3 * ∑ i in Finset.range n, (w i) ^ 2 * (ends i - starts i)

end Losses

/-! ## Theorems for the interval-resampling and distortion claims -/

namespace Losses

/-- Claim C1: the spec asserts that for aligned partitions (`t0_starts =
t1_starts`, `t0_ends = t1_ends`, strictly increasing edges) `outer` returns
`y1` exactly.  The code violates this: on the aligned partition with edges
`[0, 1, 2]` and weights `y1 = [0, 1]`, `outer` returns `[1, 1]` and not
`[0, 1]` — the `side="right"` search for `idx_hi` over-counts the successor
bin whenever a source bin end coincides with a target bin end. -/
theorem outer_aligned_bins_evaluation :
    outer [0, 1] [1, 2] [0, 1] [1, 2] [0, 1] = [1, 1] ∧
      outer [0, 1] [1, 2] [0, 1] [1, 2] [0, 1] ≠ [0, 1] := by
  constructor <;>
    norm_num [outer, cumsumZero, searchsortedRight, List.countP, List.countP.go]

/-- Claim C3: on one and the same partition `t` (so `starts i = t i`,
`ends i = t (i+1)`) and weight vector `w` with `1 ≤ n ≤ 64` samples, the
O(n²) pairwise formulation `lossfun_distortion` and the per-ray value of
`nerfstudio_distortion_loss` agree — exactly, in exact arithmetic, hence in
particular within the 1e-5 tolerance of the spec. -/
theorem distortion_formulations_agree (n : ℕ) (t w : ℕ → ℚ)
    (h1 : 1 ≤ n) (h64 : n ≤ 64) :
    lossfun_distortion n t w =
      nerfstudio_distortion_loss n (fun i => t i) (fun i => t (i + 1)) w := by
  unfold lossfun_distortion nerfstudio_distortion_loss
  congr 1
  · refine Finset.sum_congr rfl (fun i _ => ?_)
    rw [Finset.mul_sum]
    refine Finset.sum_congr rfl (fun j _ => ?_)
    rw [← mul_assoc]
    congr 2
    ring
  · rw [div_eq_mul_inv, mul_comm]
    congr 1
    norm_num

/-- Witness for Claim C3 at `n = 2`, `t i = i`, `w i = 1`. -/
theorem distortion_formulations_agree_witness :
    lossfun_distortion 2 (fun i => (i : ℚ)) (fun _ => 1) =
      nerfstudio_distortion_loss 2 (fun i => (i : ℚ))
        (fun i => ((i + 1 : ℕ) : ℚ)) (fun _ => 1) :=
  distortion_formulations_agree 2 (fun i => (i : ℚ)) (fun _ => 1)
    (by decide) (by decide)

end Losses

/-! ## Image-space losses: `GradientLoss`, `MiDaSMSELoss`,
`ScaleAndShiftInvariantLoss` (losses.py lines 336-490).

An image of shape `H × W` is an index function `ℕ → ℕ → ℚ`; a batch of `B`
images is `ℕ → ℕ → ℕ → ℚ` indexed by the batch index first.  Only indices
below the given bounds are ever summed over. -/

namespace Losses

/-- Double sum of `f` over the `H × W` index grid. -/
def sum2 (H W : ℕ) (f : ℕ → ℕ → ℚ) : ℚ :=
  ∑ i in Finset.range H, ∑ j in Finset.range W, f i j

theorem sum2_congr {H W : ℕ} {f g : ℕ → ℕ → ℚ} (h : ∀ i j, f i j = g i j) :
    sum2 H W f = sum2 H W g := by
  unfold sum2
  exact Finset.sum_congr rfl fun i _ => Finset.sum_congr rfl fun j _ => h i j

theorem sum2_add (H W : ℕ) (f g : ℕ → ℕ → ℚ) :
    sum2 H W (fun i j => f i j + g i j) = sum2 H W f + sum2 H W g := by
  unfold sum2
  rw [← Finset.sum_add_distrib]
  exact Finset.sum_congr rfl fun i _ => Finset.sum_add_distrib

theorem sum2_smul (H W : ℕ) (c : ℚ) (f : ℕ → ℕ → ℚ) :
    sum2 H W (fun i j => c * f i j) = c * sum2 H W f := by
  unfold sum2
  rw [Finset.mul_sum]
  exact Finset.sum_congr rfl fun i _ => (Finset.mul_sum _ _ _).symm

/-- Reduction policy of the image losses (`reduction_type`). -/
inductive ReductionType where
  | image : ReductionType
  | batch : ReductionType

/-- Modelled from the spec: the collaborator `masked_reduction`
(`nerfstudio.utils.math`, not under `src/`).  Per spec section 4.6,
"batch" sums the per-image values across the batch and divides by the total
valid count, and "image" reduces per image then averages across the batch,
excluding images with a zero valid count; zero denominators yield 0 rather
than a division by zero. -/
def masked_reduction (B : ℕ) (vals norms : ℕ → ℚ) : ReductionType → ℚ
  | ReductionType.batch =>
      if (∑ k in Finset.range B, norms k) = 0 then 0
      else (∑ k in Finset.range B, vals k) / ∑ k in Finset.range B, norms k
  | ReductionType.image =>
      let valid := (Finset.range B).filter (fun k => norms k ≠ 0)
      if valid.card = 0 then 0
      else (∑ k in valid, vals k / norms k) / (valid.card : ℚ)

theorem masked_reduction_congr (B : ℕ) (vals vals' norms norms' : ℕ → ℚ)
    (rt : ReductionType) (hv : ∀ k, k < B → vals k = vals' k)
    (hn : ∀ k, k < B → norms k = norms' k) :
    masked_reduction B vals norms rt = masked_reduction B vals' norms' rt := by
  have hvs : ∀ k ∈ Finset.range B, vals k = vals' k := fun k hk =>
    hv k (Finset.mem_range.mp hk)
  have hns : ∀ k ∈ Finset.range B, norms k = norms' k := fun k hk =>
    hn k (Finset.mem_range.mp hk)
  cases rt with
  | batch =>
      unfold masked_reduction
      have h1 : (∑ k in Finset.range B, vals k) = ∑ k in Finset.range B, vals' k :=
        Finset.sum_congr rfl hvs
      have h2 : (∑ k in Finset.range B, norms k) = ∑ k in Finset.range B, norms' k :=
        Finset.sum_congr rfl hns
      rw [h1, h2]
  | image =>
      unfold masked_reduction
      have hfil : (Finset.range B).filter (fun k => norms k ≠ 0) =
          (Finset.range B).filter (fun k => norms' k ≠ 0) := by
        refine Finset.filter_congr (fun k hk => ?_)
        rw [hns k hk]
      have hsum : (∑ k in (Finset.range B).filter (fun k => norms' k ≠ 0),
            vals k / norms k) =
          ∑ k in (Finset.range B).filter (fun k => norms' k ≠ 0),
            vals' k / norms' k := by
        refine Finset.sum_congr rfl (fun k hk => ?_)
        have hk' := Finset.mem_of_mem_filter k hk
        rw [hvs k hk', hns k hk']
      simp only [hfil, hsum]

/-- The masked residual `diff = mask * (prediction - target)` of
`GradientLoss.gradient_loss` (losses.py lines 425-426). -/
def gdiff (p t m : ℕ → ℕ → ℚ) : ℕ → ℕ → ℚ :=
  fun i j => m i j * (p i j - t i j)

/-- Per-image part of `GradientLoss.gradient_loss` (losses.py lines
424-436): masked absolute finite differences of the masked residual in both
axes, summed over the image.  `grad_x` lives on the `H × (W-1)` grid and
`grad_y` on the `(H-1) × W` grid. -/
def gradientLossImage (H W : ℕ) (p t m : ℕ → ℕ → ℚ) : ℚ :=
  sum2 H (W - 1)
      (fun i j => m i (j + 1) * m i j * |gdiff p t m i (j + 1) - gdiff p t m i j|) +
    sum2 (H - 1) W
      (fun i j => m (i + 1) j * m i j * |gdiff p t m (i + 1) j - gdiff p t m i j|)

/-- `GradientLoss.gradient_loss` (losses.py lines 410-439) over a batch:
per-image loss and per-image mask sum, combined by `masked_reduction`. -/
def gradient_loss (B H W : ℕ) (rt : ReductionType) (P T M : ℕ → ℕ → ℕ → ℚ) : ℚ :=
  masked_reduction B (fun k => gradientLossImage H W (P k) (T k) (M k))
    (fun k => sum2 H W (M k)) rt

/-- Python strided slicing `x[::k]` on an axis of size `h` keeps the
`ceil(h / k)` indices `0, k, 2k, ...`. -/
def stridedDim (h k : ℕ) : ℕ := (h + k - 1) / k

/-- The image `x[::k, ::k]`: entry `(i, j)` is `x (k*i) (k*j)`. -/
def strided (k : ℕ) (p : ℕ → ℕ → ℚ) : ℕ → ℕ → ℚ :=
  fun i j => p (k * i) (k * j)

/-- `GradientLoss.forward` (losses.py lines 385-408): sum over
`scale < scales` of `gradient_loss` applied to the inputs strided by
`2 ^ scale` in both image axes. -/
def gradient_loss_forward (scales B H W : ℕ) (rt : ReductionType)
    (P T M : ℕ → ℕ → ℕ → ℚ) : ℚ :=
  ∑ s in Finset.range scales,
    gradient_loss B (stridedDim H (2 ^ s)) (stridedDim W (2 ^ s)) rt
      (fun k => strided (2 ^ s) (P k)) (fun k => strided (2 ^ s) (T k))
      (fun k => strided (2 ^ s) (M k))

theorem gdiff_addConst (p t m : ℕ → ℕ → ℚ) (c : ℚ) :
    gdiff (fun i j => p i j + c) (fun i j => t i j + c) m = gdiff p t m := by
  funext i j
  unfold gdiff
  ring

theorem gradientLossImage_addConst (H W : ℕ) (p t m : ℕ → ℕ → ℚ) (c : ℚ) :
    gradientLossImage H W (fun i j => p i j + c) (fun i j => t i j + c) m =
      gradientLossImage H W p t m := by
  unfold gradientLossImage
  rw [gdiff_addConst]

/-- Claim C8: `GradientLoss.forward` is unchanged when the same constant is
added to every pixel of both the prediction and the target, at every scale:
the masked residual `mask * ((p + c) - (t + c))` equals `mask * (p - t)`. -/
theorem gradient_loss_translation_invariant (scales B H W : ℕ)
    (rt : ReductionType) (P T M : ℕ → ℕ → ℕ → ℚ) (c : ℚ) :
    gradient_loss_forward scales B H W rt
        (fun k i j => P k i j + c) (fun k i j => T k i j + c) M =
      gradient_loss_forward scales B H W rt P T M := by
  unfold gradient_loss_forward
  refine Finset.sum_congr rfl (fun s _ => ?_)
  unfold gradient_loss
  refine masked_reduction_congr _ _ _ _ _ _ (fun k _ => ?_) (fun k _ => rfl)
  show gradientLossImage _ _
      (fun i j => P k (2 ^ s * i) (2 ^ s * j) + c)
      (fun i j => T k (2 ^ s * i) (2 ^ s * j) + c)
      (strided (2 ^ s) (M k)) = _
  rw [gradientLossImage_addConst]
  rfl

/-! ### `MiDaSMSELoss` and `ScaleAndShiftInvariantLoss` -/

/-- Per-image part of `MiDaSMSELoss.forward` (losses.py lines 348-364):
`sum(mse(prediction, target) * mask)` over the image. -/
def midasImageLoss (H W : ℕ) (p t m : ℕ → ℕ → ℚ) : ℚ :=
  sum2 H W (fun i j => (p i j - t i j) ^ 2 * m i j)

/-- `MiDaSMSELoss.forward` over a batch: the per-image loss is reduced by
`masked_reduction(image_loss, 2 * summed_mask, reduction_type)`. -/
def midas_mse_loss (B H W : ℕ) (rt : ReductionType) (P T M : ℕ → ℕ → ℕ → ℚ) : ℚ :=
  masked_reduction B (fun k => midasImageLoss H W (P k) (T k) (M k))
    (fun k => 2 * sum2 H W (M k)) rt

/-- Masked second moment `a_00 = sum(mask * prediction * prediction)` of the
alignment system. -/
def alignA00 (H W : ℕ) (p m : ℕ → ℕ → ℚ) : ℚ :=
  sum2 H W (fun i j => m i j * p i j * p i j)

/-- Masked first moment `a_01 = sum(mask * prediction)`. -/
def alignA01 (H W : ℕ) (p m : ℕ → ℕ → ℚ) : ℚ :=
  sum2 H W (fun i j => m i j * p i j)

/-- Mask total `a_11 = sum(mask)`. -/
def alignA11 (H W : ℕ) (m : ℕ → ℕ → ℚ) : ℚ :=
  sum2 H W (fun i j => m i j)

/-- Masked cross moment `b_0 = sum(mask * prediction * target)`. -/
def alignB0 (H W : ℕ) (p t m : ℕ → ℕ → ℚ) : ℚ :=
  sum2 H W (fun i j => m i j * p i j * t i j)

/-- Masked target moment `b_1 = sum(mask * target)`. -/
def alignB1 (H W : ℕ) (t m : ℕ → ℕ → ℚ) : ℚ :=
  sum2 H W (fun i j => m i j * t i j)

/-- Determinant of the 2×2 normal system of the least-squares alignment. -/
def alignDet (H W : ℕ) (p m : ℕ → ℕ → ℚ) : ℚ :=
  alignA00 H W p m * alignA11 H W m - alignA01 H W p m * alignA01 H W p m

/-- Modelled from the spec: the collaborator
`normalized_depth_scale_and_shift` (`nerfstudio.utils.math`, not under
`src/`).  Per spec sections 4.6 and 6 it is the exact closed-form
least-squares solver for per-image `(scale, shift)` minimising
`sum(mask * (scale * prediction + shift - target)^2)`; images with a
singular normal system get `(0, 0)`. -/
def normalized_depth_scale_and_shift (H W : ℕ) (p t m : ℕ → ℕ → ℚ) : ℚ × ℚ :=
  if alignDet H W p m = 0 then (0, 0)
  else
    ((alignA11 H W m * alignB0 H W p t m - alignA01 H W p m * alignB1 H W t m) /
        alignDet H W p m,
      (alignA00 H W p m * alignB1 H W t m - alignA01 H W p m * alignB0 H W p t m) /
        alignDet H W p m)

/-- The aligned prediction `scale * prediction + shift`
(`self.__prediction_ssi`, losses.py line 475). -/
def ssiAligned (H W : ℕ) (p t m : ℕ → ℕ → ℚ) : ℕ → ℕ → ℚ :=
  fun i j => (normalized_depth_scale_and_shift H W p t m).1 * p i j +
    (normalized_depth_scale_and_shift H W p t m).2

/-- `ScaleAndShiftInvariantLoss.forward` (losses.py lines 463-481):
align the prediction, then `data_loss + (alpha > 0 ? alpha * reg_loss : 0)`
on the aligned prediction. -/
def ssi_forward (alpha : ℚ) (scales B H W : ℕ) (rt : ReductionType)
    (P T M : ℕ → ℕ → ℕ → ℚ) : ℚ :=
  midas_mse_loss B H W rt (fun k => ssiAligned H W (P k) (T k) (M k)) T M +
    if 0 < alpha then
      alpha * gradient_loss_forward scales B H W rt
        (fun k => ssiAligned H W (P k) (T k) (M k)) T M
    else 0

theorem alignA00_affine (H W : ℕ) (p m : ℕ → ℕ → ℚ) (a b : ℚ) :
    alignA00 H W (fun i j => a * p i j + b) m =
      a ^ 2 * alignA00 H W p m + 2 * a * b * alignA01 H W p m +
        b ^ 2 * alignA11 H W m := by
  unfold alignA00 alignA01 alignA11
  rw [← sum2_smul H W (a ^ 2), ← sum2_smul H W (2 * a * b), ← sum2_smul H W (b ^ 2),
    ← sum2_add, ← sum2_add]
  exact sum2_congr (fun i j => by ring)

theorem alignA01_affine (H W : ℕ) (p m : ℕ → ℕ → ℚ) (a b : ℚ) :
    alignA01 H W (fun i j => a * p i j + b) m =
      a * alignA01 H W p m + b * alignA11 H W m := by
  unfold alignA01 alignA11
  rw [← sum2_smul H W a, ← sum2_smul H W b, ← sum2_add]
  exact sum2_congr (fun i j => by ring)

theorem alignB0_affine (H W : ℕ) (p t m : ℕ → ℕ → ℚ) (a b : ℚ) :
    alignB0 H W (fun i j => a * p i j + b) t m =
      a * alignB0 H W p t m + b * alignB1 H W t m := by
  unfold alignB0 alignB1
  rw [← sum2_smul H W a, ← sum2_smul H W b, ← sum2_add]
  exact sum2_congr (fun i j => by ring)

theorem alignDet_affine (H W : ℕ) (p m : ℕ → ℕ → ℚ) (a b : ℚ) :
    alignDet H W (fun i j => a * p i j + b) m = a ^ 2 * alignDet H W p m := by
  unfold alignDet
  rw [alignA00_affine, alignA01_affine]
  ring

/-- With a nonsingular normal system, the aligned prediction is invariant
under a positive affine reparameterisation of the raw prediction. -/
theorem ssiAligned_affine (H W : ℕ) (p t m : ℕ → ℕ → ℚ) (a b : ℚ)
    (ha : a ≠ 0) (hdet : alignDet H W p m ≠ 0) :
    ssiAligned H W (fun i j => a * p i j + b) t m = ssiAligned H W p t m := by
  funext i j
  have hdet' : alignDet H W (fun i j => a * p i j + b) m ≠ 0 := by
    rw [alignDet_affine]
    exact mul_ne_zero (pow_ne_zero 2 ha) hdet
  unfold ssiAligned normalized_depth_scale_and_shift
  rw [if_neg hdet', if_neg hdet]
  simp only
  rw [alignA00_affine, alignA01_affine, alignB0_affine, alignDet_affine]
  field_simp
  ring

theorem midas_mse_loss_congr (B H W : ℕ) (rt : ReductionType)
    (P P' T M : ℕ → ℕ → ℕ → ℚ) (h : ∀ k, k < B → P k = P' k) :
    midas_mse_loss B H W rt P T M = midas_mse_loss B H W rt P' T M := by
  unfold midas_mse_loss
  exact masked_reduction_congr _ _ _ _ _ _
    (fun k hk => by rw [h k hk]) (fun k _ => rfl)

theorem gradient_loss_forward_congr (scales B H W : ℕ) (rt : ReductionType)
    (P P' T M : ℕ → ℕ → ℕ → ℚ) (h : ∀ k, k < B → P k = P' k) :
    gradient_loss_forward scales B H W rt P T M =
      gradient_loss_forward scales B H W rt P' T M := by
  unfold gradient_loss_forward
  refine Finset.sum_congr rfl (fun s _ => ?_)
  unfold gradient_loss
  exact masked_reduction_congr _ _ _ _ _ _
    (fun k hk => by simp only [h k hk]) (fun k _ => rfl)

/-- Claim C4: assuming the external alignment solver returns the exact
closed-form least-squares alignment (here modelled from the spec), the value
of `ScaleAndShiftInvariantLoss.forward` on `a * prediction + b` equals its
value on `prediction`, for every `a > 0`, every `b`, and every batch whose
per-image normal systems are nonsingular (the regime in which the exact
solver is defined). -/
theorem ssi_loss_affine_invariant (alpha : ℚ) (scales B H W : ℕ)
    (rt : ReductionType) (P T M : ℕ → ℕ → ℕ → ℚ) (a b : ℚ) (ha : 0 < a)
    (hdet : ∀ k, k < B → alignDet H W (P k) (M k) ≠ 0) :
    ssi_forward alpha scales B H W rt (fun k i j => a * P k i j + b) T M =
      ssi_forward alpha scales B H W rt P T M := by
  have key : ∀ k, k < B →
      ssiAligned H W (fun i j => a * P k i j + b) (T k) (M k) =
        ssiAligned H W (P k) (T k) (M k) := fun k hk =>
    ssiAligned_affine H W (P k) (T k) (M k) a b (ne_of_gt ha) (hdet k hk)
  unfold ssi_forward
  rw [midas_mse_loss_congr B H W rt _
      (fun k => ssiAligned H W (P k) (T k) (M k)) T M key,
    gradient_loss_forward_congr scales B H W rt _
      (fun k => ssiAligned H W (P k) (T k) (M k)) T M key]

/-- Witness for Claim C4: a one-image batch (`H = 1`, `W = 2`) with
prediction row `[0, 1]`, target row `[0, 2]`, full mask, `a = 2`, `b = 3`,
`alpha = 1/2`, one gradient scale; the normal system has determinant 1. -/
theorem ssi_loss_affine_invariant_witness :
    ssi_forward (1 / 2) 1 1 1 2 ReductionType.batch
        (fun _ i j => 2 * (fun _ i j => if j = 0 then (0 : ℚ) else 1) 0 i j + 3)
        (fun _ i j => if j = 0 then (0 : ℚ) else 2) (fun _ _ _ => 1) =
      ssi_forward (1 / 2) 1 1 1 2 ReductionType.batch
        (fun _ i j => if j = 0 then (0 : ℚ) else 1)
        (fun _ i j => if j = 0 then (0 : ℚ) else 2) (fun _ _ _ => 1) := by
  refine ssi_loss_affine_invariant (1 / 2) 1 1 1 2 ReductionType.batch
    (fun _ i j => if j = 0 then (0 : ℚ) else 1)
    (fun _ i j => if j = 0 then (0 : ℚ) else 2) (fun _ _ _ => 1) 2 3
    (by norm_num) (fun k _ => ?_)
  norm_num [alignDet, alignA00, alignA01, alignA11, sum2, Finset.sum_range_succ]

/-! ### Depth supervision losses (losses.py lines 215-315)

These involve `exp`/`log`, so they are embedded over `ℝ`.  A batch holds `m`
rays of `n` samples each; per-ray sample tensors are index functions. -/

/-- The numerical stabiliser `EPS = 1.0e-7` (losses.py line 36). -/
noncomputable def EPS : ℝ := 1e-7

/-- `URF_SIGMA_SCALE_FACTOR = 3.0` (losses.py line 39). -/
noncomputable def URF_SIGMA_SCALE_FACTOR : ℝ := 3

/-- The boolean mask `termination_depth > 0` as the 0/1 factor it becomes
when multiplied into the loss. -/
noncomputable def maskVal (d : ℝ) : ℝ := if 0 < d then 1 else 0

/-- Per-ray input of `ds_nerf_depth_loss`: weights, sampling distances
(`steps`), distances between steps (`lengths`) and the ground-truth
termination depth. -/
structure DSRay where
  weights : ℕ → ℝ
  steps : ℕ → ℝ
  lengths : ℕ → ℝ
  termination : ℝ

/-- Per-ray sample sum of `ds_nerf_depth_loss` (losses.py line 235):
`sum(-log(w + EPS) * exp(-(steps - termination_depth)^2 / (2 * sigma)) * lengths)`. -/
noncomputable def dsRaySum (n : ℕ) (r : DSRay) (sigma : ℝ) : ℝ :=
  ∑ i in Finset.range n,
    -Real.log (r.weights i + EPS) *
      Real.exp (-(r.steps i - r.termination) ^ 2 / (2 * sigma)) * r.lengths i

/-- `ds_nerf_depth_loss` (losses.py lines 215-237): the per-ray sums are
multiplied by the validity mask and reduced by `torch.mean`, whose
denominator is the number of all rays in the batch. -/
noncomputable def ds_nerf_depth_loss (n m : ℕ) (rays : ℕ → DSRay) (sigma : ℝ) : ℝ :=
  (∑ k in Finset.range m, dsRaySum n (rays k) sigma * maskVal (rays k).termination) / m

/-- Per-ray input of `urban_radiance_field_depth_loss`. -/
structure URFRay where
  weights : ℕ → ℝ
  steps : ℕ → ℝ
  termination : ℝ
  predicted : ℝ

/-- `exp(Normal(0.0, s).log_prob(x))`, the Gaussian density with standard
deviation `s` evaluated at `x` (losses.py lines 264-269);
`log_prob(x) = -x^2 / (2 s^2) - log(s * sqrt(2 π))`. -/
noncomputable def normalPdf (s x : ℝ) : ℝ :=
  Real.exp (-x ^ 2 / (2 * s ^ 2) - Real.log (s * Real.sqrt (2 * Real.pi)))

/-- The "near" line-of-sight term (losses.py lines 266-270): on samples with
`termination - sigma ≤ steps ≤ termination + sigma`, penalise the squared
deviation of the weight from the Gaussian profile of width
`sigma / URF_SIGMA_SCALE_FACTOR` centred at the termination depth. -/
noncomputable def urfNear (n : ℕ) (r : URFRay) (sigma : ℝ) : ℝ :=
  ∑ i in Finset.range n,
    (if r.steps i ≤ r.termination + sigma ∧ r.termination - sigma ≤ r.steps i
      then (1 : ℝ) else 0) *
      (r.weights i - normalPdf (sigma / URF_SIGMA_SCALE_FACTOR)
        (r.steps i - r.termination)) ^ 2

/-- The "empty" line-of-sight term (losses.py lines 271-272): squared
weights of samples strictly before `termination - sigma`. -/
noncomputable def urfEmpty (n : ℕ) (r : URFRay) (sigma : ℝ) : ℝ :=
  ∑ i in Finset.range n,
    (if r.steps i < r.termination - sigma then (1 : ℝ) else 0) * (r.weights i) ^ 2

/-- Per-ray loss of `urban_radiance_field_depth_loss` (losses.py lines
258-275): expected-depth loss plus the two line-of-sight terms, masked by
depth validity. -/
noncomputable def urfRayLoss (n : ℕ) (r : URFRay) (sigma : ℝ) : ℝ :=
  ((r.termination - r.predicted) ^ 2 + (urfNear n r sigma + urfEmpty n r sigma)) *
    maskVal r.termination

/-- `urban_radiance_field_depth_loss` (losses.py lines 240-276): the mean of
the per-ray losses over all rays of the batch. -/
noncomputable def urban_radiance_field_depth_loss (n m : ℕ) (rays : ℕ → URFRay)
    (sigma : ℝ) : ℝ :=
  (∑ k in Finset.range m, urfRayLoss n (rays k) sigma) / m

/-- Batch-level input of `depth_loss`: the per-ray frustum starts/ends,
weights, ground-truth and predicted depth and the ray-direction norm. -/
structure DLRay where
  fStarts : ℕ → ℝ
  fEnds : ℕ → ℝ
  weights : ℕ → ℝ
  termination : ℝ
  predicted : ℝ
  directionsNorm : ℝ

/-- The unit conversion at the top of `depth_loss` (losses.py lines
304-305): if the ground truth is not Euclidean, multiply it by the norm of
the ray direction. -/
noncomputable def adjTermination (isEuclidean : Bool) (r : DLRay) : ℝ :=
  if isEuclidean then r.termination else r.termination * r.directionsNorm

/-- `steps = (frustums.starts + frustums.ends) / 2` (losses.py line 306). -/
noncomputable def dlSteps (r : DLRay) : ℕ → ℝ :=
  fun i => (r.fStarts i + r.fEnds i) / 2

/-- `lengths = frustums.ends - frustums.starts` (losses.py line 309). -/
noncomputable def dlLengths (r : DLRay) : ℕ → ℝ :=
  fun i => r.fEnds i - r.fStarts i

/-- The depth-loss kind enum (losses.py lines 42-46). -/
inductive DepthLossType where
  | DS_NERF : DepthLossType
  | URF : DepthLossType
deriving DecidableEq

/-- Python-level errors raised by this module. -/
inductive PyError where
  | notImplementedError : PyError
  | nameError : PyError
deriving DecidableEq

/-- `depth_loss` (losses.py lines 279-315).  Python is dynamically typed, so
the caller may pass any object as `depth_loss_type`; an argument that is not
one of the two enum members is modelled as `none`, and for it the function
falls through both `if` branches to
`raise NotImplementedError("Provided depth loss type not implemented.")`. -/
noncomputable def depth_loss (n m : ℕ) (inp : ℕ → DLRay) (sigma : ℝ)
    (isEuclidean : Bool) (kind : Option DepthLossType) : Except PyError ℝ :=
  match kind with
  | some DepthLossType.DS_NERF =>
      Except.ok (ds_nerf_depth_loss n m
        (fun k => ⟨(inp k).weights, dlSteps (inp k), dlLengths (inp k),
          adjTermination isEuclidean (inp k)⟩) sigma)
  | some DepthLossType.URF =>
      Except.ok (urban_radiance_field_depth_loss n m
        (fun k => ⟨(inp k).weights, dlSteps (inp k),
          adjTermination isEuclidean (inp k), (inp k).predicted⟩) sigma)
  | none => Except.error PyError.notImplementedError

/-- Claim C7: on a batch in which every ray has `termination_depth ≤ 0`,
both `ds_nerf_depth_loss` and `urban_radiance_field_depth_loss` return
exactly 0: every per-ray term carries the factor `maskVal = 0` and
`torch.mean` of the zero tensor is 0. -/
theorem depth_losses_zero_when_no_valid_depth (n m : ℕ) (sigma : ℝ)
    (ds : ℕ → DSRay) (us : ℕ → URFRay) (hsigma : 0 < sigma)
    (hds : ∀ k, k < m → (ds k).termination ≤ 0)
    (hus : ∀ k, k < m → (us k).termination ≤ 0) :
    ds_nerf_depth_loss n m ds sigma = 0 ∧
      urban_radiance_field_depth_loss n m us sigma = 0 := by
  constructor
  · unfold ds_nerf_depth_loss
    rw [Finset.sum_eq_zero, zero_div]
    intro k hk
    have h : maskVal (ds k).termination = 0 := by
      unfold maskVal
      exact if_neg (not_lt.mpr (hds k (Finset.mem_range.mp hk)))
    rw [h, mul_zero]
  · unfold urban_radiance_field_depth_loss
    rw [Finset.sum_eq_zero, zero_div]
    intro k hk
    have h : maskVal (us k).termination = 0 := by
      unfold maskVal
      exact if_neg (not_lt.mpr (hus k (Finset.mem_range.mp hk)))
    unfold urfRayLoss
    rw [h, mul_zero]

/-- Witness for Claim C7: a one-ray batch with `termination_depth = -1`. -/
theorem depth_losses_zero_when_no_valid_depth_witness :
    ds_nerf_depth_loss 1 1 (fun _ => ⟨fun _ => 0, fun _ => 0, fun _ => 0, -1⟩) 1 = 0 ∧
      urban_radiance_field_depth_loss 1 1
        (fun _ => ⟨fun _ => 0, fun _ => 0, -1, 0⟩) 1 = 0 :=
  depth_losses_zero_when_no_valid_depth 1 1 1
    (fun _ => ⟨fun _ => 0, fun _ => 0, fun _ => 0, -1⟩)
    (fun _ => ⟨fun _ => 0, fun _ => 0, -1, 0⟩)
    (by norm_num) (fun k _ => by norm_num) (fun k _ => by norm_num)

/-- Claim C9: `depth_loss` raises `NotImplementedError` for every
`depth_loss_type` that is neither `DS_NERF` nor `URF` (modelled by `none`,
since the two-member enum itself has no further values but Python callers
may pass any object); it never returns a value for such an argument. -/
theorem depth_loss_unrecognized_kind_errors (n m : ℕ) (inp : ℕ → DLRay)
    (sigma : ℝ) (isEuclidean : Bool) (kind : Option DepthLossType)
    (h1 : kind ≠ some DepthLossType.DS_NERF)
    (h2 : kind ≠ some DepthLossType.URF) :
    depth_loss n m inp sigma isEuclidean kind =
      Except.error PyError.notImplementedError := by
  match kind with
  | none => rfl
  | some DepthLossType.DS_NERF => exact absurd rfl h1
  | some DepthLossType.URF => exact absurd rfl h2

/-- Witness for Claim C9: an unrecognized loss kind on a small batch. -/
theorem depth_loss_unrecognized_kind_errors_witness :
    depth_loss 1 1 (fun _ => ⟨fun _ => 0, fun _ => 0, fun _ => 0, 0, 0, 0⟩)
      1 true none = Except.error PyError.notImplementedError :=
  depth_loss_unrecognized_kind_errors 1 1
    (fun _ => ⟨fun _ => 0, fun _ => 0, fun _ => 0, 0, 0, 0⟩) 1 true none
    (by decide) (by decide)

/-! ### Claim C2: the reduction of the Gaussian-weighted depth loss -/

/-- The per-ray sample sum of the Gaussian-weighted depth loss exactly as
the spec states it: `sum_samples[-log(w + eps) * exp(-(step - depth)^2 /
(2 sigma)) * bin_width]` with `step` the frustum midpoint, `bin_width =
end - start` and `depth` the (unit-converted) ground-truth depth. -/
noncomputable def specDsRaySum (n : ℕ) (sigma : ℝ) (isEuclidean : Bool)
    (r : DLRay) : ℝ :=
  ∑ i in Finset.range n,
    -Real.log (r.weights i + EPS) *
      Real.exp (-((r.fStarts i + r.fEnds i) / 2 - adjTermination isEuclidean r) ^ 2 /
        (2 * sigma)) * (r.fEnds i - r.fStarts i)

/-- The value Claim C2 asserts `depth_loss` (kind `DS_NERF`) returns: the
mean over valid rays only — rays with positive ground-truth depth — with the
invalid rays excluded from the denominator. -/
noncomputable def dsNerfClaimedValue (n m : ℕ) (inp : ℕ → DLRay) (sigma : ℝ)
    (isEuclidean : Bool) : ℝ :=
  (∑ k in Finset.range m,
      if 0 < adjTermination isEuclidean (inp k)
      then specDsRaySum n sigma isEuclidean (inp k) else 0) /
    (∑ k in Finset.range m,
      if 0 < adjTermination isEuclidean (inp k) then (1 : ℝ) else 0)

/-- The value `depth_loss` (kind `DS_NERF`) actually returns: the same
masked numerator, but divided by the number of all rays in the batch. -/
noncomputable def dsNerfMaskedMean (n m : ℕ) (inp : ℕ → DLRay) (sigma : ℝ)
    (isEuclidean : Bool) : ℝ :=
  (∑ k in Finset.range m,
      if 0 < adjTermination isEuclidean (inp k)
      then specDsRaySum n sigma isEuclidean (inp k) else 0) / m

/-- A valid ray (`termination_depth = 1 > 0`) with one sample: frustum
`[1/2, 3/2]` (midpoint 1, width 1) and weight 0. -/
noncomputable def cexRayValid : DLRay :=
  ⟨fun _ => 1 / 2, fun _ => 3 / 2, fun _ => 0, 1, 0, 1⟩

/-- An invalid ray (`termination_depth = -1 ≤ 0`), otherwise identical. -/
noncomputable def cexRayInvalid : DLRay :=
  ⟨fun _ => 1 / 2, fun _ => 3 / 2, fun _ => 0, -1, 0, 1⟩

/-- Counterexample to Claim C2: on a two-ray batch with exactly one valid
ray, `depth_loss` with kind `DS_NERF` does not return the mean over valid
rays — the valid ray contributes `-log(EPS) > 0`, the code divides it by 2
(the total ray count) while the claim divides it by 1 (the valid count). -/
theorem ds_nerf_valid_ray_mean_counterexample :
    depth_loss 1 2 (fun k => if k = 0 then cexRayValid else cexRayInvalid)
        (1 / 2) true (some DepthLossType.DS_NERF) ≠
      Except.ok (dsNerfClaimedValue 1 2
        (fun k => if k = 0 then cexRayValid else cexRayInvalid) (1 / 2) true) := by
  have hlog : Real.log EPS < 0 := Real.log_neg (by norm_num [EPS]) (by norm_num [EPS])
  simp only [depth_loss, ds_nerf_depth_loss, dsNerfClaimedValue, specDsRaySum, dsRaySum,
    dlSteps, dlLengths, adjTermination, maskVal, cexRayValid, cexRayInvalid,
    Finset.sum_range_succ, Finset.sum_range_one, Except.ok.injEq]
  norm_num
  intro h
  linarith

/-- Claim C2, amended: `depth_loss` with kind `DS_NERF` returns the mean
over ALL rays of the masked per-ray Gaussian-weighted sums — invalid rays
(`termination_depth ≤ 0`) contribute 0 to the numerator but still count in
the denominator. -/
theorem ds_nerf_mean_over_all_rays (n m : ℕ) (inp : ℕ → DLRay) (sigma : ℝ)
    (isEuclidean : Bool) :
    depth_loss n m inp sigma isEuclidean (some DepthLossType.DS_NERF) =
      Except.ok (dsNerfMaskedMean n m inp sigma isEuclidean) := by
  unfold depth_loss dsNerfMaskedMean ds_nerf_depth_loss
  refine congrArg Except.ok ?_
  refine congrArg (fun x => x / (m : ℝ)) ?_
  refine Finset.sum_congr rfl (fun k _ => ?_)
  show dsRaySum n ⟨(inp k).weights, dlSteps (inp k), dlLengths (inp k),
      adjTermination isEuclidean (inp k)⟩ sigma *
      maskVal (adjTermination isEuclidean (inp k)) = _
  unfold maskVal
  by_cases h : 0 < adjTermination isEuclidean (inp k)
  · rw [if_pos h, if_pos h, mul_one]
    rfl
  · rw [if_neg h, if_neg h, mul_zero]

/-! ### Claim C6: which samples constrain the URF line-of-sight loss -/

theorem urfNear_congr (n : ℕ) (sigma : ℝ) (u u' : URFRay)
    (hs : u.steps = u'.steps) (ht : u.termination = u'.termination)
    (hw : ∀ i, i < n → u.weights i ≠ u'.weights i →
      u.termination + sigma < u.steps i) :
    urfNear n u sigma = urfNear n u' sigma := by
  unfold urfNear
  refine Finset.sum_congr rfl (fun i hi => ?_)
  by_cases hwi : u.weights i = u'.weights i
  · rw [hwi, hs, ht]
  · have hb := hw i (Finset.mem_range.mp hi) hwi
    have h1 : ¬(u.steps i ≤ u.termination + sigma ∧
        u.termination - sigma ≤ u.steps i) := fun hc => absurd hc.1 (not_le.mpr hb)
    rw [← hs, ← ht, if_neg h1]
    ring

theorem urfEmpty_congr (n : ℕ) (sigma : ℝ) (u u' : URFRay) (hsigma : 0 < sigma)
    (hs : u.steps = u'.steps) (ht : u.termination = u'.termination)
    (hw : ∀ i, i < n → u.weights i ≠ u'.weights i →
      u.termination + sigma < u.steps i) :
    urfEmpty n u sigma = urfEmpty n u' sigma := by
  unfold urfEmpty
  refine Finset.sum_congr rfl (fun i hi => ?_)
  by_cases hwi : u.weights i = u'.weights i
  · rw [hwi, hs, ht]
  · have hb := hw i (Finset.mem_range.mp hi) hwi
    have h1 : ¬(u.steps i < u.termination - sigma) := by
      intro hc
      linarith
    rw [← hs, ← ht, if_neg h1]
    ring

/-- Claim C6.  First part: `urban_radiance_field_depth_loss` is independent
of the weights of samples strictly beyond `termination_depth + sigma` — two
batches equal except in such weights give the same loss.  Second part: on a
ray, turning the weight of a sample strictly before `termination_depth -
sigma` from zero to nonzero strictly increases the empty-region penalty. -/
theorem urf_beyond_surface_independent_and_empty_strict :
    (∀ (n m : ℕ) (sigma : ℝ) (us us' : ℕ → URFRay), 0 < sigma →
      (∀ k, k < m →
        (us k).steps = (us' k).steps ∧
        (us k).termination = (us' k).termination ∧
        (us k).predicted = (us' k).predicted ∧
        ∀ i, i < n → (us k).weights i ≠ (us' k).weights i →
          (us k).termination + sigma < (us k).steps i) →
      urban_radiance_field_depth_loss n m us sigma =
        urban_radiance_field_depth_loss n m us' sigma) ∧
    (∀ (n : ℕ) (sigma : ℝ) (u u' : URFRay) (i : ℕ), 0 < sigma → i < n →
      u.steps = u'.steps → u.termination = u'.termination →
      (∀ j, j < n → j ≠ i → u.weights j = u'.weights j) →
      u.weights i = 0 → u'.weights i ≠ 0 →
      u'.steps i < u'.termination - sigma →
      urfEmpty n u sigma < urfEmpty n u' sigma) := by
  constructor
  · intro n m sigma us us' hsigma h
    unfold urban_radiance_field_depth_loss
    refine congrArg (fun x => x / (m : ℝ)) ?_
    refine Finset.sum_congr rfl (fun k hk => ?_)
    obtain ⟨hs, ht, hp, hw⟩ := h k (Finset.mem_range.mp hk)
    unfold urfRayLoss
    rw [urfNear_congr n sigma _ _ hs ht hw,
      urfEmpty_congr n sigma _ _ hsigma hs ht hw, ht, hp]
  · intro n sigma u u' i hsigma hi hs ht hw hw0 hw0' hstep
    unfold urfEmpty
    refine Finset.sum_lt_sum (fun j hj => ?_) ⟨i, Finset.mem_range.mpr hi, ?_⟩
    · by_cases hji : j = i
      · subst hji
        rw [hw0]
        have h0 : (0 : ℝ) ≤ (if u'.steps j < u'.termination - sigma
            then (1 : ℝ) else 0) := by
          split_ifs <;> norm_num
        calc (if u.steps j < u.termination - sigma then (1 : ℝ) else 0) * 0 ^ 2
            = 0 := by ring
          _ ≤ _ := mul_nonneg h0 (sq_nonneg _)
      · rw [hw j (Finset.mem_range.mp hj) hji, hs, ht]
    · rw [hw0, hs, ht, if_pos hstep]
      have hsq : 0 < (u'.weights i) ^ 2 := by positivity
      simpa using hsq

/-- Witness for Claim C6: a one-ray batch whose only sample lies at step 5,
beyond `termination + sigma = 2`, with weight 0 versus weight 1 (first
part); and a ray whose only sample lies at step 0, before `termination -
sigma = 1`, with weight 0 versus weight 1 (second part). -/
theorem urf_beyond_surface_independent_and_empty_strict_witness :
    urban_radiance_field_depth_loss 1 1
        (fun _ => ⟨fun _ => 0, fun _ => 5, 1, 1⟩) 1 =
      urban_radiance_field_depth_loss 1 1
        (fun _ => ⟨fun _ => 1, fun _ => 5, 1, 1⟩) 1 ∧
    urfEmpty 1 ⟨fun _ => 0, fun _ => 0, 2, 0⟩ 1 <
      urfEmpty 1 ⟨fun _ => 1, fun _ => 0, 2, 0⟩ 1 := by
  constructor
  · exact urf_beyond_surface_independent_and_empty_strict.1 1 1 1
      (fun _ => ⟨fun _ => 0, fun _ => 5, 1, 1⟩)
      (fun _ => ⟨fun _ => 1, fun _ => 5, 1, 1⟩) (by norm_num)
      (fun k _ => ⟨rfl, rfl, rfl, fun i _ _ => by norm_num⟩)
  · exact urf_beyond_surface_independent_and_empty_strict.2 1 1
      ⟨fun _ => 0, fun _ => 0, 2, 0⟩ ⟨fun _ => 1, fun _ => 0, 2, 0⟩ 0
      (by norm_num) (by norm_num) rfl rfl
      (fun j _ hj => absurd (Nat.lt_one_iff.mp (by omega)) hj)
      rfl (by norm_num) (by norm_num)

/-! ### `GANLoss` (losses.py lines 498-538) -/

/-- `torch.nn.functional.softplus`. -/
noncomputable def softplus (x : ℝ) : ℝ := Real.log (1 + Real.exp x)

/-- `torch.mean` of a 1-D tensor of `m` entries. -/
noncomputable def meanF (m : ℕ) (f : ℕ → ℝ) : ℝ := (∑ k in Finset.range m, f k) / m

/-- The module-level binding of the name `step` read by `GANLoss.forward`
(losses.py line 528).  `losses.py` defines no global `step`, and `forward`
binds no local one, so the name lookup fails: `none`. -/
def ganGlobalStep : Option ℕ := none

/-- The module-level binding of the name `real_img` read by
`GANLoss.forward` (losses.py line 529); likewise undefined: `none`. -/
def ganGlobalRealImg : Option Unit := none

/-- `GANLoss.forward` in discriminator mode (`m_type == 'D'`, losses.py
lines 524-531).  `fake_pred, real_pred = preds`; the non-saturating part is
`softplus(-real_pred).mean() + softplus(fake_pred).mean()`; the code then
evaluates `step % self.reg_step == 0`, which must first resolve the free
name `step` (and, inside the branch, `real_img`); an unresolvable name
raises `NameError`.  `r1value` stands for the value the R1 penalty
`r1_regularization(real_pred, real_img)` would contribute — second-order
autograd is outside this embedding, and the branch is unreachable anyway. -/
noncomputable def ganLoss_forward_D (reg_step : ℕ) (r1_gamma r1value : ℝ)
    (mFake mReal : ℕ) (fake_pred real_pred : ℕ → ℝ) : Except PyError ℝ :=
  let lossDmain := meanF mReal (fun k => softplus (-real_pred k)) +
    meanF mFake (fun k => softplus (fake_pred k))
  match ganGlobalStep with
  | none => Except.error PyError.nameError
  | some step =>
      if step % reg_step = 0 then
        match ganGlobalRealImg with
        | none => Except.error PyError.nameError
        | some _ => Except.ok (lossDmain + r1value * (r1_gamma / 2))
      else Except.ok lossDmain

/-- Claim C5 concerns `GANLoss.forward` in discriminator mode, which the
claim says returns `mean(softplus(-real_pred)) + mean(softplus(fake_pred))`
plus a periodic R1 term.  In the code the branch guard reads the free
variable `step` (and the penalty reads `real_img`), neither of which is
bound anywhere in the module, so every discriminator-mode call raises
`NameError` instead of returning a value. -/
theorem gan_discriminator_forward_name_error (reg_step : ℕ)
    (r1_gamma r1value : ℝ) (mFake mReal : ℕ) (fake_pred real_pred : ℕ → ℝ) :
    ganLoss_forward_D reg_step r1_gamma r1value mFake mReal fake_pred real_pred =
      Except.error PyError.nameError := rfl

/-! ### `trunc_exp` (activations.py lines 24-42) -/

/-- `torch.clamp(x, -15, 15)` as used in `_TruncExp.backward`. -/
noncomputable def clampR (x lo hi : ℝ) : ℝ := min (max x lo) hi

/-- `_TruncExp.forward` (activations.py lines 29-31): `return torch.exp(x)`. -/
noncomputable def truncExpForward (x : ℝ) : ℝ := Real.exp x

/-- `_TruncExp.backward` (activations.py lines 35-37):
`return g * torch.exp(x.clamp(-15, 15))`. -/
noncomputable def truncExpBackward (x g : ℝ) : ℝ :=
  g * Real.exp (clampR x (-15) 15)

/-- Claim C10: the forward pass of `trunc_exp` is exactly `exp(x)` with no
clamping (in particular, for `x > 15` it differs from the clamped
exponential), while the backward rule is `g * exp(clamp(x, -15, 15))`. -/
theorem trunc_exp_forward_unclamped :
    (∀ x : ℝ, truncExpForward x = Real.exp x) ∧
      (∀ x g : ℝ, truncExpBackward x g = g * Real.exp (clampR x (-15) 15)) ∧
      (∀ x : ℝ, 15 < x → truncExpForward x ≠ Real.exp (clampR x (-15) 15)) := by
  refine ⟨fun x => rfl, fun x g => rfl, fun x hx => ?_⟩
  unfold truncExpForward clampR
  have hmax : max x (-15 : ℝ) = x := max_eq_left (by linarith)
  have hmin : min (max x (-15 : ℝ)) 15 = 15 := by
    rw [hmax]
    exact min_eq_right (le_of_lt hx)
  rw [hmin]
  intro h
  have := Real.exp_lt_exp.mpr hx
  rw [h] at this
  exact lt_irrefl _ this

/-- Witness for Claim C10 at `x = 16`: `exp(16) ≠ exp(clamp(16, -15, 15))`. -/
theorem trunc_exp_forward_unclamped_witness :
    truncExpForward 16 ≠ Real.exp (clampR 16 (-15) 15) :=
  trunc_exp_forward_unclamped.2.2 16 (by norm_num)

end Losses
